import Mathlib

attribute [local semireducible] Rat.add Rat.sub Rat.mul Rat.inv Rat.ofScientific

/-!
Verification of the trial-extraction engine of `src/parsing/parse_psychopy.py`
(time-perception-brain-body repository).

Shallow embedding conventions:
* Python `float` timestamps are modelled as `ℚ` (exact arithmetic).
* A log file is given to the engine as its path (a `String`) plus the list of
  its text lines (gzip decompression is transparent to the line contents and
  is therefore not modelled).
* Python's substring test `needle in hay` is modelled as a structural
  substring search on the character lists; `re.match`/`re.search` for the two
  fixed patterns used by the code are modelled by explicit character-list
  matchers.
* Fallible code (`raise ValueError`) is modelled with `Except String`.
-/

/-- Python's `\s` whitespace class, restricted to the ASCII whitespace
characters (space, tab, newline, carriage return, vertical tab, form feed);
the log lines handled by the engine contain only ASCII whitespace. -/
def pyIsSpace (c : Char) : Bool :=
  c = ' ' || c = '\t' || c = '\n' || c = '\r' || c = '\x0b' || c = '\x0c'

/-- One tokenized log event: `(timestamp, event_type, message)`. -/
structure LogEvent where
  t : ℚ
  etype : String
  msg : String
deriving DecidableEq, Repr

/-- Metadata extracted from the log filename. -/
structure ExperimentMetadata where
  experiment_date : String
  experiment_time : String
deriving DecidableEq, Repr

/-- One trial record, with exactly the fields the Python dict carries. -/
structure Trial where
  experiment_date : String
  experiment_time : String
  stim1_onset : ℚ
  stim1_offset : ℚ
  stim2_onset : ℚ
  stim2_offset : ℚ
  stim1_duration : ℚ
  stim2_duration : ℚ
  stim_dur_delta : ℚ
  choice_key : Option String
  choice_time : Option ℚ
  choice_rt : Option ℚ
deriving DecidableEq, Repr

/-! ### Float literal parsing (model of Python `float(...)`)

`float(parts[0])` in the tokenizer.  We model the decimal-literal part of
Python's grammar: optional surrounding whitespace, optional sign, an integer
part and/or a fractional part (at least one digit overall), and an optional
exponent.  (`inf`/`nan` and digit-group underscores are not modelled; the
instrument logs contain plain decimal timestamps.) -/

/-- Numeric value of a digit run, most significant first. -/
def natOfDigits (ds : List Char) : Nat :=
  ds.foldl (fun n c => n * 10 + (c.toNat - '0'.toNat)) 0

/-- Parse an optional sign, returning the sign as `1` or `-1`. -/
def takeSign : List Char → Int × List Char
  | '+' :: r => (1, r)
  | '-' :: r => (-1, r)
  | r => (1, r)

/-- Parse a mandatory nonempty digit run. -/
def takeDigitRun (cs : List Char) : Option (List Char × List Char) :=
  let p := cs.span (·.isDigit)
  if p.1.isEmpty then none else some p

/-- Parse the optional exponent suffix `([eE][+-]?digits)?`,
returning the exponent value and the rest. -/
def takeExponent : List Char → Option (Int × List Char)
  | 'e' :: r =>
    let sp := takeSign r
    match takeDigitRun sp.2 with
    | some (ds, r2) => some (sp.1 * (natOfDigits ds : Int), r2)
    | none => none
  | 'E' :: r =>
    let sp := takeSign r
    match takeDigitRun sp.2 with
    | some (ds, r2) => some (sp.1 * (natOfDigits ds : Int), r2)
    | none => none
  | r => some (0, r)

/-- Scale a rational by an integer power of ten. -/
def scalePow10 (q : ℚ) (e : Int) : ℚ :=
  if 0 ≤ e then q * (10 : ℚ) ^ e.toNat else q / (10 : ℚ) ^ (-e).toNat

/-- Model of Python `float` on a character list (decimal literals). -/
def parseFloatChars (cs : List Char) : Option ℚ :=
  let cs := (cs.dropWhile pyIsSpace).reverse.dropWhile pyIsSpace |>.reverse
  let sp := takeSign cs
  let ip := sp.2.span (·.isDigit)
  let fp : Option (List Char) × List Char :=
    match ip.2 with
    | '.' :: r => let q := r.span (·.isDigit); (some q.1, q.2)
    | r => (none, r)
  if ip.1.isEmpty && (fp.1.getD []).isEmpty then none
  else
    match takeExponent fp.2 with
    | none => none
    | some (e, rest) =>
      if rest.isEmpty then
        let frac := fp.1.getD []
        let mag : ℚ := (natOfDigits ip.1 : ℚ) +
          (natOfDigits frac : ℚ) / (10 : ℚ) ^ frac.length
        some (scalePow10 ((sp.1 : ℚ) * mag) e)
      else none

/-- Model of Python `float` on a string. -/
def parseFloat (s : String) : Option ℚ := parseFloatChars s.data

/-! ### Event Tokenizer (`iter_log_events`) -/

/-- Python `s.split(sep)` on a single-character separator: split at every
occurrence, keeping empty fields. -/
def splitOnChar (sep : Char) : List Char → List (List Char)
  | [] => [[]]
  | c :: cs =>
    if c = sep then [] :: splitOnChar sep cs
    else
      match splitOnChar sep cs with
      | [] => [[c]]
      | h :: tl => (c :: h) :: tl

/-- The split `splitOnChar` lifted to strings. -/
def pySplit (s : String) (sep : Char) : List String :=
  (splitOnChar sep s.data).map fun cs => ⟨cs⟩

/-- Python `line.rstrip("\n")`: remove every trailing newline character. -/
def rstripNl (s : String) : String :=
  ⟨(s.data.reverse.dropWhile (· = '\n')).reverse⟩

/-- Tokenize one raw line: split on tab, require at least 3 fields and a
numeric field 0; otherwise the line is skipped (`none`). -/
def parseLine (line : String) : Option LogEvent :=
  let parts := pySplit (rstripNl line) '\t'
  if parts.length < 3 then none
  else
    match parseFloat (parts.getD 0 "") with
    | none => none
    | some t => some ⟨t, parts.getD 1 "", parts.getD 2 ""⟩

/-- Engine function `iter_log_events`: tokenize the file's lines in order, silently skipping
invalid lines. -/
def iter_log_events (lines : List String) : List LogEvent :=
  lines.filterMap parseLine

/-! ### Filename Metadata Extractor (`extract_experiment_datetime`) -/

/-- The five capture groups of the datetime pattern, as character lists. -/
structure DtGroups where
  date : List Char
  hh : List Char
  mi : List Char
  ss : List Char
  ms : List Char
deriving DecidableEq, Repr

/-- Take exactly `n` decimal digits from the front (model of `\d{n}`). -/
def takeDigits : Nat → List Char → Option (List Char × List Char)
  | 0, cs => some ([], cs)
  | _ + 1, [] => none
  | n + 1, c :: cs =>
    if c.isDigit then
      match takeDigits n cs with
      | some (ds, rest) => some (c :: ds, rest)
      | none => none
    else none

/-- Consume one expected literal character. -/
def expectChar (ch : Char) : List Char → Option (List Char)
  | [] => none
  | c :: cs => if c = ch then some cs else none

/-- Try to match `(\d{4}-\d{2}-\d{2})_(\d{2})h(\d{2})\.(\d{2})\.(\d{3})`
anchored at the start of `cs`. -/
def matchDatetimeAt (cs : List Char) : Option DtGroups := do
  let (y, r1) ← takeDigits 4 cs
  let r2 ← expectChar '-' r1
  let (mo, r3) ← takeDigits 2 r2
  let r4 ← expectChar '-' r3
  let (dd, r5) ← takeDigits 2 r4
  let r6 ← expectChar '_' r5
  let (hh, r7) ← takeDigits 2 r6
  let r8 ← expectChar 'h' r7
  let (mi, r9) ← takeDigits 2 r8
  let r10 ← expectChar '.' r9
  let (ss, r11) ← takeDigits 2 r10
  let r12 ← expectChar '.' r11
  let (ms, _) ← takeDigits 3 r12
  pure ⟨y ++ '-' :: mo ++ '-' :: dd, hh, mi, ss, ms⟩

/-- Model of `re.search` for the datetime pattern: try each start position
left to right, returning the leftmost match. -/
def searchDatetime : List Char → Option DtGroups
  | [] => none
  | c :: rest =>
    match matchDatetimeAt (c :: rest) with
    | some g => some g
    | none => searchDatetime rest

/-- Model of `os.path.basename` on POSIX: the part after the last slash. -/
def osBasename (p : String) : String :=
  (pySplit p '/').getLastD p

/-- Engine function `extract_experiment_datetime`: parse experiment date/time from the log
filename, failing with a descriptive error when the pattern is absent. -/
def extract_experiment_datetime (log_path : String) :
    Except String ExperimentMetadata :=
  let filename := osBasename log_path
  match searchDatetime filename.data with
  | none =>
    .error ("Could not extract experiment datetime from filename: " ++ filename)
  | some g =>
    .ok ⟨String.mk g.date,
      String.mk g.hh ++ ":" ++ String.mk g.mi ++ ":" ++ String.mk g.ss
        ++ "." ++ String.mk g.ms⟩

/-! ### Interval Extractor (`extract_periods`) -/

/-- The `"<stim>: autoDraw = true"` marker substring. -/
def trueSub (stim : String) : String := stim ++ ": autoDraw = true"

/-- The `"<stim>: autoDraw = null"` marker substring. -/
def nullSub (stim : String) : String := stim ++ ": autoDraw = null"

/-- Substring search on character lists: does `needle` occur as a contiguous
run inside `hay`?  (Structural-recursion implementation of Python's `in`.) -/
def subSearch (needle : List Char) : List Char → Bool
  | [] => needle.isEmpty
  | c :: tl => needle.isPrefixOf (c :: tl) || subSearch needle tl

/-- Python's `needle in hay` substring test. -/
def hasSub (needle hay : String) : Bool := subSearch needle.data hay.data

/-- The two-state scan of `extract_periods`, with the pending onset as the
explicit state (`none` = no interval open). -/
def extractAux (stim : String) : Option ℚ → List LogEvent → List (ℚ × ℚ)
  | _, [] => []
  | none, e :: rest =>
    if hasSub (trueSub stim) e.msg then extractAux stim (some e.t) rest
    else extractAux stim none rest
  | some a, e :: rest =>
    if hasSub (nullSub stim) e.msg then (a, e.t) :: extractAux stim none rest
    else extractAux stim (some a) rest

/-- Engine function `extract_periods`: `(onset, offset)` pairs for one stimulus, from the
autoDraw true/null toggles. -/
def extract_periods (events : List LogEvent) (stim : String) : List (ℚ × ℚ) :=
  extractAux stim none events

/-! ### Key events and response matching -/

/-- Model of `re.match(r"Keydown:\s*(.*)", msg)`: succeeds iff the message
starts with `"Keydown:"`; the captured label is the rest after the maximal
whitespace run, truncated at a newline (`.` does not match `\n`). -/
def keyLabel (msg : String) : Option String :=
  if "Keydown:".data.isPrefixOf msg.data then
    some ⟨((msg.data.drop 8).dropWhile pyIsSpace).takeWhile (· ≠ '\n')⟩
  else none

/-- The key-event pass of `parse_time_interval_log`: events with type
`"DATA"` whose message is a Keydown report, in order. -/
def extractKeyEvents (events : List LogEvent) : List (ℚ × String) :=
  events.filterMap fun e =>
    if e.etype = "DATA" then (keyLabel e.msg).map fun k => (e.t, k) else none

/-- The admissibility test of the response matcher: label `"1"` or `"2"`,
timestamp within `[resp_on, resp_off + 1.0]`. -/
def keyQualifies (resp_on resp_off : ℚ) (e : ℚ × String) : Bool :=
  (e.2 = "1" || e.2 = "2") && decide (resp_on ≤ e.1) &&
    decide (e.1 ≤ resp_off + 1)

/-- The response matcher's scan with early exit: first admissible key event. -/
def findChoice (resp_on resp_off : ℚ) (ks : List (ℚ × String)) :
    Option (ℚ × String) :=
  ks.find? (keyQualifies resp_on resp_off)

/-! ### Trial assembly (`parse_time_interval_log` main loop) -/

/-- The body of the per-trial loop: durations, delta, and response fields. -/
def mkTrialRecord (md : ExperimentMetadata) (p1 p2 pr : ℚ × ℚ)
    (ks : List (ℚ × String)) : Trial :=
  let stim1_dur := p1.2 - p1.1
  let stim2_dur := p2.2 - p2.1
  match findChoice pr.1 pr.2 ks with
  | some (t, key) =>
    ⟨md.experiment_date, md.experiment_time, p1.1, p1.2, p2.1, p2.2,
      stim1_dur, stim2_dur, stim1_dur - stim2_dur,
      some key, some t, some (t - pr.1)⟩
  | none =>
    ⟨md.experiment_date, md.experiment_time, p1.1, p1.2, p2.1, p2.2,
      stim1_dur, stim2_dur, stim1_dur - stim2_dur, none, none, none⟩

/-- The trial aligner plus assembler: `for i in range(min(...))`, indexing the
three interval sequences positionally. -/
def buildTrials (md : ExperimentMetadata) (f s r : List (ℚ × ℚ))
    (ks : List (ℚ × String)) : List Trial :=
  let n := min (min f.length s.length) r.length
  (List.range n).map fun i =>
    mkTrialRecord md (f.getD i (0, 0)) (s.getD i (0, 0)) (r.getD i (0, 0)) ks

/-- Engine function `parse_time_interval_log`: the whole engine for one file, given its path
and its text lines. -/
def parse_time_interval_log (log_path : String) (lines : List String) :
    Except String (List Trial) :=
  let events := iter_log_events lines
  match extract_experiment_datetime log_path with
  | .error e => .error e
  | .ok md =>
    let first_periods := extract_periods events "firstImg"
    let second_periods := extract_periods events "secondImg"
    let response_periods := extract_periods events "responseImg"
    let key_events := extractKeyEvents events
    .ok (buildTrials md first_periods second_periods response_periods key_events)

/-! ### CSV writer (`save_trials_to_csv`) -/

/-- One CSV cell as handed to `csv.DictWriter`: a string, a number, or an
empty cell for `None` (the text formatting of numbers is abstracted). -/
inductive Cell where
  | str (s : String)
  | num (q : ℚ)
  | blank
deriving DecidableEq, Repr

/-- The fixed header row: the 12 field names, in schema order. -/
def csvFieldnames : List String :=
  ["experiment_date", "experiment_time", "stim1_onset", "stim1_offset",
   "stim2_onset", "stim2_offset", "stim1_duration", "stim2_duration",
   "stim_dur_delta", "choice_key", "choice_time", "choice_rt"]

/-- A nullable string cell. -/
def cellOfOptStr : Option String → Cell
  | some s => .str s
  | none => .blank

/-- A nullable numeric cell. -/
def cellOfOptNum : Option ℚ → Cell
  | some q => .num q
  | none => .blank

/-- One data row of the CSV, in schema order. -/
def rowOfTrial (tr : Trial) : List Cell :=
  [.str tr.experiment_date, .str tr.experiment_time,
   .num tr.stim1_onset, .num tr.stim1_offset,
   .num tr.stim2_onset, .num tr.stim2_offset,
   .num tr.stim1_duration, .num tr.stim2_duration, .num tr.stim_dur_delta,
   cellOfOptStr tr.choice_key, cellOfOptNum tr.choice_time,
   cellOfOptNum tr.choice_rt]

/-- Engine function `save_trials_to_csv`: fails on an empty trial list before any output is
produced; otherwise emits the header row followed by one row per trial. -/
def save_trials_to_csv (trials : List Trial) :
    Except String (List (List Cell)) :=
  if trials.isEmpty then .error "No trials parsed."
  else .ok ((csvFieldnames.map Cell.str) :: trials.map rowOfTrial)

/-! ### Spec-side definitions (used to state the claims)

These definitions follow the specification's wording; the theorems below
compare them with the definitions translated from the source. -/

/-- Decidable equality for `Except` results. -/
instance {ε α : Type} [DecidableEq ε] [DecidableEq α] :
    DecidableEq (Except ε α) := fun a b =>
  match a, b with
  | .ok x, .ok y => decidable_of_iff (x = y) (by simp)
  | .error x, .error y => decidable_of_iff (x = y) (by simp)
  | .ok _, .error _ => isFalse (by simp)
  | .error _, .ok _ => isFalse (by simp)

/-- Classify an event as a `true` or `null` autoDraw marker for `stim`
(messages containing both marker substrings are not classified). -/
def markerOf (stim : String) (e : LogEvent) : Option (Bool × ℚ) :=
  if hasSub (trueSub stim) e.msg then some (true, e.t)
  else if hasSub (nullSub stim) e.msg then some (false, e.t)
  else none

/-- The spec's two-state scan over a marker stream (section 4.3): a `true`
marker while closed records the pending onset; a `null` marker while open
emits `(onset, offset)` and closes; a `true` while open and a `null` while
closed are ignored; a trailing open interval is dropped. -/
def specScan : Option ℚ → List (Bool × ℚ) → List (ℚ × ℚ)
  | _, [] => []
  | none, (true, t) :: ms => specScan (some t) ms
  | none, (false, _) :: ms => specScan none ms
  | some a, (true, _) :: ms => specScan (some a) ms
  | some a, (false, t) :: ms => (a, t) :: specScan none ms

/-- Build the log event carrying exactly one autoDraw marker. -/
def mkMarkerEvent (stim : String) (m : Bool × ℚ) : LogEvent :=
  ⟨m.2, "EXP", if m.1 then trueSub stim else nullSub stim⟩

/-- The marker stream of an alternating sequence of `true`-then-`null`
toggles, one pair per intended interval. -/
def altMarkers : List (ℚ × ℚ) → List (Bool × ℚ)
  | [] => []
  | (a, b) :: ps => (true, a) :: (false, b) :: altMarkers ps

/-- The spec's line-validity test (section 4.1): at least 3 tab-separated
fields and a numeric field 0. -/
def specLineValid (line : String) : Bool :=
  decide (3 ≤ (pySplit (rstripNl line) '\t').length) &&
    (parseFloat ((pySplit (rstripNl line) '\t').getD 0 "")).isSome

/-- The event a valid line denotes: parsed field 0, fields 1 and 2 verbatim. -/
def specLineEvent (line : String) : LogEvent :=
  let parts := pySplit (rstripNl line) '\t'
  ⟨(parseFloat (parts.getD 0 "")).getD 0, parts.getD 1 "", parts.getD 2 ""⟩

/-- The admissibility condition of the response matcher, as the spec words
it: label exactly `"1"` or `"2"`, timestamp within
`[resp_on, resp_off + 1.0]`. -/
def specAdmissible (resp_on resp_off : ℚ) (e : ℚ × String) : Prop :=
  (e.2 = "1" ∨ e.2 = "2") ∧ resp_on ≤ e.1 ∧ e.1 ≤ resp_off + 1

instance (resp_on resp_off : ℚ) (e : ℚ × String) :
    Decidable (specAdmissible resp_on resp_off e) :=
  inferInstanceAs (Decidable (_ ∧ _ ∧ _))

/-- The datetime pattern `(\d{4}-\d{2}-\d{2})_(\d{2})h(\d{2})\.(\d{2})\.(\d{3})`
occurring at the very start of `cs`, as an explicit decomposition. -/
def specDtAt (cs : List Char) : Prop :=
  ∃ (y mo dd hh mi ss ms rest : List Char),
    y.length = 4 ∧ mo.length = 2 ∧ dd.length = 2 ∧ hh.length = 2 ∧
    mi.length = 2 ∧ ss.length = 2 ∧ ms.length = 3 ∧
    (∀ c ∈ y ++ mo ++ dd ++ hh ++ mi ++ ss ++ ms, c.isDigit = true) ∧
    cs = y ++ '-' :: (mo ++ '-' :: (dd ++ '_' :: (hh ++ 'h' ::
      (mi ++ '.' :: (ss ++ '.' :: (ms ++ rest))))))

/-- The datetime pattern occurring somewhere in `cs`. -/
def specDtOccur (cs : List Char) : Prop :=
  ∃ pre suf, cs = pre ++ suf ∧ specDtAt suf

/-- The claim's characterization of a key event: event type exactly `"DATA"`
and message starting with `"Keydown:"`; the label is the rest of the message
after the prefix and any immediately following whitespace. -/
def specKeyOf (e : LogEvent) : Option (ℚ × String) :=
  if e.etype = "DATA" && "Keydown:".data.isPrefixOf e.msg.data then
    some (e.t, ⟨(e.msg.data.drop 8).dropWhile pyIsSpace⟩)
  else none

/-! ### Concrete inputs used by the end-to-end scenario and the witnesses -/

/-- The lines of the end-to-end scenario log (section 8 of the spec):
one full toggle triple and one keydown at t = 5.2. -/
def c1Lines : List String :=
  ["1.0\tEXP\tfirstImg: autoDraw = true",
   "3.0\tEXP\tfirstImg: autoDraw = null",
   "3.0\tEXP\tsecondImg: autoDraw = true",
   "4.5\tEXP\tsecondImg: autoDraw = null",
   "4.5\tEXP\tresponseImg: autoDraw = true",
   "5.2\tDATA\tKeydown: 1",
   "6.0\tEXP\tresponseImg: autoDraw = null"]

/-- The single trial the end-to-end scenario expects. -/
def c1Trial : Trial :=
  ⟨"2021-07-16", "09:56:52.759", 1, 3, 3, 4.5, 2, 1.5, 0.5,
    some "1", some 5.2, some 0.7⟩

/-- Two events with equal timestamps: an immediate true/null toggle. -/
def c6Events : List LogEvent :=
  [⟨1, "EXP", "s: autoDraw = true"⟩, ⟨1, "EXP", "s: autoDraw = null"⟩]

/-- Metadata shared by the witness inputs. -/
def wMd : ExperimentMetadata := ⟨"2021-07-16", "09:56:52.759"⟩

/-- Witness intervals of length 5 for firstImg. -/
def wC3f : List (ℚ × ℚ) := [(0, 1), (1, 2), (2, 3), (3, 4), (4, 5)]

/-- Witness intervals of length 3 for secondImg. -/
def wC3s : List (ℚ × ℚ) := [(0, 1), (1, 2), (2, 3)]

/-- Witness intervals of length 7 for responseImg. -/
def wC3r : List (ℚ × ℚ) :=
  [(0, 1), (1, 2), (2, 3), (3, 4), (4, 5), (5, 6), (6, 7)]

/-! ### Theorems -/

/-- Claim C1: for the end-to-end scenario -- a log file named with datetime
part `2021-07-16_09h56.52.759` whose events contain one autoDraw true/null
toggle pair for firstImg (1.0, 3.0), secondImg (3.0, 4.5) and responseImg
(4.5, 6.0), plus a `DATA` / `Keydown: 1` event at 5.2 --
`parse_time_interval_log` returns exactly one trial with
`experiment_date = "2021-07-16"`, `experiment_time = "09:56:52.759"`,
`stim1_duration = 2.0`, `stim2_duration = 1.5`, `stim_dur_delta = 0.5`,
`choice_key = "1"`, `choice_time = 5.2` and `choice_rt = 0.7`. -/
theorem c1_end_to_end :
    parse_time_interval_log "P1_2021-07-16_09h56.52.759.log" c1Lines =
      .ok [c1Trial] := by decide

/-- Claim C9: `save_trials_to_csv` fails with "No trials parsed." exactly
when the trial list is empty, producing no output rows in that case; a
nonempty list is written as the header row plus one row per trial; and an
empty trial sequence produced by the aligner inside
`parse_time_interval_log` is not an error. -/
theorem c9_empty_write (trials : List Trial) :
    (trials = [] → save_trials_to_csv trials = .error "No trials parsed.") ∧
    (trials ≠ [] → save_trials_to_csv trials =
      .ok ((csvFieldnames.map Cell.str) :: trials.map rowOfTrial)) ∧
    (∀ e, save_trials_to_csv trials = .error e ↔
      (trials = [] ∧ e = "No trials parsed.")) ∧
    (∀ path lines md, extract_experiment_datetime path = .ok md →
      ∃ ts, parse_time_interval_log path lines = .ok ts) := by
  refine ⟨?_, ?_, ?_, ?_⟩
  · rintro rfl; rfl
  · intro h
    simp [save_trials_to_csv, h]
  · intro e
    cases trials with
    | nil => simp [save_trials_to_csv, eq_comm]
    | cons a l => simp [save_trials_to_csv]
  · intro path lines md h
    refine ⟨buildTrials md
      (extract_periods (iter_log_events lines) "firstImg")
      (extract_periods (iter_log_events lines) "secondImg")
      (extract_periods (iter_log_events lines) "responseImg")
      (extractKeyEvents (iter_log_events lines)), ?_⟩
    simp only [parse_time_interval_log, h]

/-- Witness for C9: the empty list is refused, a singleton is written. -/
theorem c9_empty_write_witness :
    save_trials_to_csv [] = .error "No trials parsed." ∧
    save_trials_to_csv [c1Trial] =
      .ok [csvFieldnames.map Cell.str, [rowOfTrial c1Trial].getD 0 []] := by
  constructor
  · exact (c9_empty_write []).1 rfl
  · have h := (c9_empty_write [c1Trial]).2.1 (by simp)
    simpa using h

/-- Claim C3: the number of trials built equals the minimum of the three
interval-sequence lengths; the i-th trial is built from the i-th interval of
each sequence; surplus intervals are dropped; any empty sequence yields zero
trials without error; lengths (5, 3, 7) yield exactly 3 trials; and the
trials returned by `parse_time_interval_log` obey the same count law. -/
theorem c3_alignment (md : ExperimentMetadata) (f s r : List (ℚ × ℚ))
    (ks : List (ℚ × String)) :
    ((buildTrials md f s r ks).length = min (min f.length s.length) r.length) ∧
    (∀ i, i < (buildTrials md f s r ks).length →
      (buildTrials md f s r ks)[i]? = some (mkTrialRecord md
        (f.getD i (0, 0)) (s.getD i (0, 0)) (r.getD i (0, 0)) ks)) ∧
    (f = [] ∨ s = [] ∨ r = [] → buildTrials md f s r ks = []) ∧
    (f.length = 5 → s.length = 3 → r.length = 7 →
      (buildTrials md f s r ks).length = 3) ∧
    (∀ path lines trials,
      parse_time_interval_log path lines = .ok trials →
      trials.length = min
        (min (extract_periods (iter_log_events lines) "firstImg").length
          (extract_periods (iter_log_events lines) "secondImg").length)
        (extract_periods (iter_log_events lines) "responseImg").length) := by
  refine ⟨by simp [buildTrials], ?_, ?_, ?_, ?_⟩
  · intro i hi
    simp only [buildTrials, List.length_map, List.length_range] at hi
    have hi' : i < min f.length (min s.length r.length) := by omega
    simp [buildTrials, List.getElem?_map, List.getElem?_range, hi']
  · rintro (rfl | rfl | rfl) <;> simp [buildTrials]
  · intro h1 h2 h3
    simp [buildTrials, h1, h2, h3]
  · intro path lines trials h
    unfold parse_time_interval_log at h
    cases hmd : extract_experiment_datetime path with
    | error e => rw [hmd] at h; cases h
    | ok md' =>
      rw [hmd] at h
      cases h
      simp [buildTrials]

/-- Witness for C3: sequences of lengths (5, 3, 7) yield exactly 3 trials. -/
theorem c3_alignment_witness :
    (buildTrials wMd wC3f wC3s wC3r []).length = 3 :=
  (c3_alignment wMd wC3f wC3s wC3r []).2.2.2.1 (by decide) (by decide)
    (by decide)

/-- The search `subSearch` decides the `List.IsInfix` relation. -/
theorem subSearch_iff (n : List Char) (h : List Char) :
    subSearch n h = true ↔ n <:+: h := by
  induction h with
  | nil => simp [subSearch, List.isEmpty_iff]
  | cons c tl ih =>
    simp [subSearch, List.isPrefixOf_iff_prefix, ih, List.infix_cons_iff]

/-- Every string contains itself. -/
theorem hasSub_self (s : String) : hasSub s s = true := by
  rw [hasSub, subSearch_iff]

/-- The null marker for `stim` never occurs inside the true marker. -/
theorem not_hasSub_null_true (stim : String) :
    hasSub (nullSub stim) (trueSub stim) = false := by
  rw [← Bool.not_eq_true, hasSub, subSearch_iff]
  intro hinf
  have h17 : (": autoDraw = null").data.length =
      (": autoDraw = true").data.length := by decide
  have hlen : (nullSub stim).data.length = (trueSub stim).data.length := by
    simp [nullSub, trueSub, String.data_append, h17]
  have heq := hinf.eq_of_length hlen
  rw [nullSub, trueSub, String.data_append, String.data_append] at heq
  exact absurd (List.append_cancel_left heq) (by decide)

/-- The true marker for `stim` never occurs inside the null marker. -/
theorem not_hasSub_true_null (stim : String) :
    hasSub (trueSub stim) (nullSub stim) = false := by
  rw [← Bool.not_eq_true, hasSub, subSearch_iff]
  intro hinf
  have h17 : (": autoDraw = true").data.length =
      (": autoDraw = null").data.length := by decide
  have hlen : (trueSub stim).data.length = (nullSub stim).data.length := by
    simp [nullSub, trueSub, String.data_append, h17]
  have heq := hinf.eq_of_length hlen
  rw [nullSub, trueSub, String.data_append, String.data_append] at heq
  exact absurd (List.append_cancel_left heq) (by decide)

/-- On events that never carry both marker substrings at once, the source
scan agrees with the spec's marker-stream scan, from any starting state. -/
theorem extractAux_eq_specScan (stim : String) (events : List LogEvent) :
    ∀ st : Option ℚ,
    (∀ e ∈ events, ¬(hasSub (trueSub stim) e.msg = true ∧
      hasSub (nullSub stim) e.msg = true)) →
    extractAux stim st events = specScan st (events.filterMap (markerOf stim)) := by
  induction events with
  | nil => intro st _; cases st <;> rfl
  | cons e rest ih =>
    intro st h
    have hrest := fun x hx => h x (List.mem_cons_of_mem _ hx)
    have he := h e (List.mem_cons_self _ _)
    by_cases ht : hasSub (trueSub stim) e.msg = true
    · have hn : hasSub (nullSub stim) e.msg = false := by
        cases hcase : hasSub (nullSub stim) e.msg
        · rfl
        · exact absurd ⟨ht, hcase⟩ he
      cases st with
      | none => simp [extractAux, ht, List.filterMap_cons, markerOf, specScan,
          ih _ hrest]
      | some a => simp [extractAux, ht, hn, List.filterMap_cons, markerOf,
          specScan, ih _ hrest]
    · by_cases hn : hasSub (nullSub stim) e.msg = true
      · cases st with
        | none => simp [extractAux, ht, hn, List.filterMap_cons, markerOf,
            specScan, ih _ hrest]
        | some a => simp [extractAux, ht, hn, List.filterMap_cons, markerOf,
            specScan, ih _ hrest]
      · cases st with
        | none => simp [extractAux, ht, hn, List.filterMap_cons, markerOf,
            specScan, ih _ hrest]
        | some a => simp [extractAux, ht, hn, List.filterMap_cons, markerOf,
            specScan, ih _ hrest]

/-- A marker event is classified back to the marker it was built from. -/
theorem markerOf_mk (stim : String) (m : Bool × ℚ) :
    markerOf stim (mkMarkerEvent stim m) = some m := by
  obtain ⟨b, t⟩ := m
  cases b <;>
    simp [markerOf, mkMarkerEvent, hasSub_self, not_hasSub_null_true,
      not_hasSub_true_null]

/-- A marker event never carries both marker substrings. -/
theorem mkMarkerEvent_not_both (stim : String) (m : Bool × ℚ) :
    ¬(hasSub (trueSub stim) (mkMarkerEvent stim m).msg = true ∧
      hasSub (nullSub stim) (mkMarkerEvent stim m).msg = true) := by
  obtain ⟨b, t⟩ := m
  cases b <;>
    simp [mkMarkerEvent, not_hasSub_null_true, not_hasSub_true_null]

/-- Classification inverts the construction of a marker-event list. -/
theorem filterMap_markerOf_map (stim : String) (ms : List (Bool × ℚ)) :
    (ms.map (mkMarkerEvent stim)).filterMap (markerOf stim) = ms := by
  induction ms with
  | nil => rfl
  | cons m tl ih => simp [List.filterMap_cons, markerOf_mk stim m, ih]

/-- The spec scan pairs an alternating true/null stream exactly. -/
theorem specScan_altMarkers (ps : List (ℚ × ℚ)) :
    specScan none (altMarkers ps) = ps := by
  induction ps with
  | nil => rfl
  | cons p tl ih =>
    obtain ⟨a, b⟩ := p
    simp [altMarkers, specScan, ih]

/-- Claim C2: `extract_periods` performs the spec's two-state scan -- a true
marker while closed records the onset, a null marker while open emits the
interval, a true while open and a null while closed are ignored, a trailing
open interval is dropped; consequently an alternating sequence of N
true-then-null toggles yields exactly those N intervals, and two consecutive
true markers yield one interval from the first true to the next null. -/
theorem c2_interval_pairing (stim : String) (events : List LogEvent)
    (h : ∀ e ∈ events, ¬(hasSub (trueSub stim) e.msg = true ∧
      hasSub (nullSub stim) e.msg = true)) :
    extract_periods events stim =
      specScan none (events.filterMap (markerOf stim)) ∧
    (∀ ps : List (ℚ × ℚ),
      extract_periods ((altMarkers ps).map (mkMarkerEvent stim)) stim = ps) ∧
    (∀ a b c : ℚ, ∀ ms : List (Bool × ℚ),
      extract_periods
        (((true, a) :: (true, b) :: (false, c) :: ms).map (mkMarkerEvent stim))
        stim = (a, c) :: extract_periods (ms.map (mkMarkerEvent stim)) stim) := by
  have hmap : ∀ (l : List (Bool × ℚ)), ∀ e ∈ l.map (mkMarkerEvent stim),
      ¬(hasSub (trueSub stim) e.msg = true ∧
        hasSub (nullSub stim) e.msg = true) := by
    intro l e hme
    obtain ⟨m, _, rfl⟩ := List.mem_map.1 hme
    exact mkMarkerEvent_not_both stim m
  refine ⟨extractAux_eq_specScan stim events none h, ?_, ?_⟩
  · intro ps
    rw [extract_periods, extractAux_eq_specScan stim _ none (hmap _),
      filterMap_markerOf_map, specScan_altMarkers]
  · intro a b c ms
    rw [extract_periods, extractAux_eq_specScan stim _ none (hmap _),
      filterMap_markerOf_map, extract_periods,
      extractAux_eq_specScan stim _ none (hmap _), filterMap_markerOf_map]
    simp [specScan]

/-- Witness for C2: a consecutive-true stream for firstImg is paired from
the first true to the next null. -/
theorem c2_interval_pairing_witness :
    extract_periods
      ([(true, (1 : ℚ)), (true, 2), (false, 3)].map (mkMarkerEvent "firstImg"))
      "firstImg" = [((1 : ℚ), (3 : ℚ))] := by
  have h := (c2_interval_pairing "firstImg"
    ([(true, (1 : ℚ)), (true, 2), (false, 3)].map (mkMarkerEvent "firstImg"))
    (by decide)).2.2 1 2 3 []
  simpa using h

/-- Strengthened invariant of the scan under strictly increasing timestamps:
all intervals are well-formed, strictly separated, and every onset is the
pending onset or the timestamp of a scanned event. -/
theorem extractAux_sep (stim : String) (events : List LogEvent) :
    ∀ st : Option ℚ,
    List.Pairwise (fun e f : LogEvent => e.t < f.t) events →
    (∀ a, st = some a → ∀ e ∈ events, a < e.t) →
    (∀ p ∈ extractAux stim st events, p.1 < p.2) ∧
    List.Pairwise (fun p q : ℚ × ℚ => p.2 < q.1) (extractAux stim st events) ∧
    (∀ p ∈ extractAux stim st events,
      (∃ a, st = some a ∧ p.1 = a) ∨ ∃ e ∈ events, p.1 = e.t) := by
  induction events with
  | nil =>
    intro st _ _
    refine ⟨?_, ?_, ?_⟩ <;> simp [extractAux]
  | cons e rest ih =>
    intro st hp hst
    have hhead := (List.pairwise_cons.1 hp).1
    have htail := (List.pairwise_cons.1 hp).2
    cases st with
    | none =>
      by_cases ht : hasSub (trueSub stim) e.msg = true
      · have h1 : extractAux stim none (e :: rest) =
            extractAux stim (some e.t) rest := by
          simp [extractAux, ht]
        rw [h1]
        have ihh := ih (some e.t) htail (by
          intro a ha f hf
          cases ha
          exact hhead f hf)
        refine ⟨ihh.1, ihh.2.1, ?_⟩
        intro p hpmem
        rcases ihh.2.2 p hpmem with ⟨a, ha, hpa⟩ | ⟨f, hf, hpf⟩
        · right
          exact ⟨e, List.mem_cons_self _ _, by rw [hpa]; cases ha; rfl⟩
        · right
          exact ⟨f, List.mem_cons_of_mem _ hf, hpf⟩
      · have h1 : extractAux stim none (e :: rest) =
            extractAux stim none rest := by
          simp [extractAux, ht]
        rw [h1]
        have ihh := ih none htail (by intro a ha; cases ha)
        refine ⟨ihh.1, ihh.2.1, ?_⟩
        intro p hpmem
        rcases ihh.2.2 p hpmem with ⟨a, ha, _⟩ | ⟨f, hf, hpf⟩
        · cases ha
        · exact .inr ⟨f, List.mem_cons_of_mem _ hf, hpf⟩
    | some a =>
      by_cases hn : hasSub (nullSub stim) e.msg = true
      · have h1 : extractAux stim (some a) (e :: rest) =
            (a, e.t) :: extractAux stim none rest := by
          simp [extractAux, hn]
        rw [h1]
        have hae : a < e.t := hst a rfl e (List.mem_cons_self _ _)
        have ihh := ih none htail (by intro x hx; cases hx)
        refine ⟨?_, ?_, ?_⟩
        · intro p hp'
          rcases List.mem_cons.1 hp' with rfl | hmem
          · exact hae
          · exact ihh.1 p hmem
        · refine List.pairwise_cons.2 ⟨?_, ihh.2.1⟩
          intro q hq
          rcases ihh.2.2 q hq with ⟨x, hx, _⟩ | ⟨f, hf, hqf⟩
          · cases hx
          · show e.t < q.1
            rw [hqf]
            exact hhead f hf
        · intro p hp'
          rcases List.mem_cons.1 hp' with rfl | hmem
          · exact .inl ⟨a, rfl, rfl⟩
          · rcases ihh.2.2 p hmem with ⟨x, hx, _⟩ | ⟨f, hf, hpf⟩
            · cases hx
            · exact .inr ⟨f, List.mem_cons_of_mem _ hf, hpf⟩
      · have h1 : extractAux stim (some a) (e :: rest) =
            extractAux stim (some a) rest := by
          simp [extractAux, hn]
        rw [h1]
        have ihh := ih (some a) htail (by
          intro x hx f hf
          exact hst x hx f (List.mem_cons_of_mem _ hf))
        refine ⟨ihh.1, ihh.2.1, ?_⟩
        intro p hp'
        rcases ihh.2.2 p hp' with h | ⟨f, hf, hpf⟩
        · exact .inl h
        · exact .inr ⟨f, List.mem_cons_of_mem _ hf, hpf⟩

/-- Counterexample to claim C6 as stated: with merely non-decreasing
timestamps (an immediate toggle at the same instant), an emitted interval
has onset equal to its offset, not strictly smaller. -/
theorem c6_counterexample :
    List.Pairwise (fun e f : LogEvent => e.t ≤ f.t) c6Events ∧
    extract_periods c6Events "s" = [(1, 1)] ∧
    ¬(∀ p ∈ extract_periods c6Events "s", p.1 < p.2) := by decide

/-- Claim C6 (amended): for every event sequence whose timestamps are
strictly increasing in file order, every interval emitted by
`extract_periods` has its onset strictly before its offset, and the emitted
intervals are strictly separated (never overlap). -/
theorem c6_wellformed_intervals (events : List LogEvent) (stim : String)
    (hs : List.Pairwise (fun e f : LogEvent => e.t < f.t) events) :
    (∀ p ∈ extract_periods events stim, p.1 < p.2) ∧
    List.Pairwise (fun p q : ℚ × ℚ => p.2 < q.1)
      (extract_periods events stim) := by
  have h := extractAux_sep stim events none hs (by intro a ha; cases ha)
  exact ⟨h.1, h.2.1⟩

/-- Witness for C6 (amended): two full toggles at increasing times give two
well-formed, separated intervals. -/
theorem c6_wellformed_intervals_witness :
    (∀ p ∈ extract_periods
      ([(true, (1 : ℚ)), (false, 2), (true, 3), (false, 4)].map
        (mkMarkerEvent "s")) "s", p.1 < p.2) ∧
    List.Pairwise (fun p q : ℚ × ℚ => p.2 < q.1)
      (extract_periods
        ([(true, (1 : ℚ)), (false, 2), (true, 3), (false, 4)].map
          (mkMarkerEvent "s")) "s") :=
  c6_wellformed_intervals _ "s" (by decide)

/-- The matcher's Boolean test decides the spec's admissibility condition. -/
theorem keyQualifies_iff (resp_on resp_off : ℚ) (e : ℚ × String) :
    keyQualifies resp_on resp_off e = true ↔
      specAdmissible resp_on resp_off e := by
  simp [keyQualifies, specAdmissible, and_assoc]

/-- Claim C4: the response matcher selects the first key event with label
exactly "1" or "2" and timestamp in the closed window
`[resp_on, resp_off + 1.0]`, and sets `choice_key`/`choice_time` from it;
when no event qualifies both stay unset; the window boundary is inclusive:
an event at exactly `resp_off + 1.0` is matched, one at `resp_off + 1.0001`
is not. -/
theorem c4_response_window (resp_on resp_off : ℚ) (ks : List (ℚ × String)) :
    (∀ t k, findChoice resp_on resp_off ks = some (t, k) →
      specAdmissible resp_on resp_off (t, k) ∧
      ∃ pre post, ks = pre ++ (t, k) :: post ∧
        ∀ e ∈ pre, ¬specAdmissible resp_on resp_off e) ∧
    (findChoice resp_on resp_off ks = none ↔
      ∀ e ∈ ks, ¬specAdmissible resp_on resp_off e) ∧
    (∀ md p1 p2,
      (mkTrialRecord md p1 p2 (resp_on, resp_off) ks).choice_key =
        (findChoice resp_on resp_off ks).map (fun e => e.2) ∧
      (mkTrialRecord md p1 p2 (resp_on, resp_off) ks).choice_time =
        (findChoice resp_on resp_off ks).map (fun e => e.1)) ∧
    (resp_on ≤ resp_off + 1 →
      findChoice resp_on resp_off [(resp_off + 1, "1")] =
        some (resp_off + 1, "1")) ∧
    findChoice resp_on resp_off [(resp_off + 1.0001, "1")] = none := by
  refine ⟨?_, ?_, ?_, ?_, ?_⟩
  · intro t k h
    rw [findChoice, List.find?_eq_some] at h
    obtain ⟨hq, pre, post, heq, hpre⟩ := h
    refine ⟨(keyQualifies_iff _ _ _).1 hq, pre, post, heq, ?_⟩
    intro e he
    have hfalse := hpre e he
    rw [← keyQualifies_iff]
    simp only [Bool.not_eq_true'] at hfalse
    simp [hfalse]
  · rw [findChoice, List.find?_eq_none]
    simp only [keyQualifies_iff]
  · intro md p1 p2
    cases hfc : findChoice resp_on resp_off ks with
    | none => simp [mkTrialRecord, hfc]
    | some e =>
      obtain ⟨t, k⟩ := e
      simp [mkTrialRecord, hfc]
  · intro h
    have hq : keyQualifies resp_on resp_off (resp_off + 1, "1") = true := by
      rw [keyQualifies_iff]
      exact ⟨.inl rfl, h, le_refl _⟩
    simp [findChoice, hq]
  · have hq : keyQualifies resp_on resp_off (resp_off + 1.0001, "1") = false := by
      rw [← Bool.not_eq_true, keyQualifies_iff, specAdmissible]
      rintro ⟨-, -, hle⟩
      have h1 : (1.0001 : ℚ) ≤ 1 := by linarith
      norm_num at h1
    simp [findChoice, hq]

/-- Witness for C4: a key event exactly at the end of the grace window is
matched. -/
theorem c4_response_window_witness :
    findChoice 0 1 [((2 : ℚ), "1")] = some (2, "1") := by
  have h := (c4_response_window 0 1 []).2.2.2.1 (by norm_num)
  norm_num at h
  exact h

/-- Claim C5: every trial returned by `parse_time_interval_log` satisfies
`stim1_duration = stim1_offset - stim1_onset`,
`stim2_duration = stim2_offset - stim2_onset`,
`stim_dur_delta = stim1_duration - stim2_duration`; when a choice exists
`choice_rt = choice_time` minus the onset of the trial's own (i-th)
responseImg interval, and when none exists all three choice fields are null
together. -/
theorem c5_trial_invariants (path : String) (lines : List String)
    (trials : List Trial)
    (hok : parse_time_interval_log path lines = .ok trials) :
    ∀ (i : ℕ) (tr : Trial), trials[i]? = some tr →
      tr.stim1_duration = tr.stim1_offset - tr.stim1_onset ∧
      tr.stim2_duration = tr.stim2_offset - tr.stim2_onset ∧
      tr.stim_dur_delta = tr.stim1_duration - tr.stim2_duration ∧
      ((tr.choice_key = none ∧ tr.choice_time = none ∧ tr.choice_rt = none) ∨
        ∃ k t p,
          (extract_periods (iter_log_events lines) "responseImg")[i]? =
            some p ∧
          tr.choice_key = some k ∧ tr.choice_time = some t ∧
          tr.choice_rt = some (t - p.1)) := by
  intro i tr htr
  unfold parse_time_interval_log at hok
  cases hmd : extract_experiment_datetime path with
  | error e => rw [hmd] at hok; cases hok
  | ok md =>
    rw [hmd] at hok
    cases hok
    rw [List.getElem?_eq_some] at htr
    obtain ⟨hib, rfl⟩ := htr
    have hib' := hib
    simp only [buildTrials, List.length_map, List.length_range] at hib'
    have hlen : i <
        (extract_periods (iter_log_events lines) "responseImg").length := by
      omega
    simp only [buildTrials, List.getElem_map, List.getElem_range]
    cases hfc : findChoice
        ((extract_periods (iter_log_events lines) "responseImg").getD i (0, 0)).1
        ((extract_periods (iter_log_events lines) "responseImg").getD i (0, 0)).2
        (extractKeyEvents (iter_log_events lines)) with
    | none =>
      refine ⟨by simp only [mkTrialRecord, hfc], by simp only [mkTrialRecord, hfc],
        by simp only [mkTrialRecord, hfc], .inl ?_⟩
      simp only [mkTrialRecord, hfc]
      exact ⟨trivial, trivial, trivial⟩
    | some e =>
      obtain ⟨t, k⟩ := e
      refine ⟨by simp only [mkTrialRecord, hfc], by simp only [mkTrialRecord, hfc],
        by simp only [mkTrialRecord, hfc], .inr ⟨k, t,
          (extract_periods (iter_log_events lines) "responseImg").getD i (0, 0),
          ?_, by simp only [mkTrialRecord, hfc], by simp only [mkTrialRecord, hfc],
          by simp only [mkTrialRecord, hfc]⟩⟩
      rw [List.getD_eq_getElem _ _ hlen]
      exact List.getElem?_eq_getElem hlen

/-- Witness for C5: the invariants hold for the end-to-end scenario trial,
anchored at its own (0-th) responseImg interval. -/
theorem c5_trial_invariants_witness :
    c1Trial.stim1_duration = c1Trial.stim1_offset - c1Trial.stim1_onset ∧
    c1Trial.stim2_duration = c1Trial.stim2_offset - c1Trial.stim2_onset ∧
    c1Trial.stim_dur_delta = c1Trial.stim1_duration - c1Trial.stim2_duration ∧
    ((c1Trial.choice_key = none ∧ c1Trial.choice_time = none ∧
        c1Trial.choice_rt = none) ∨
      ∃ k t p,
        (extract_periods (iter_log_events c1Lines) "responseImg")[0]? =
          some p ∧
        c1Trial.choice_key = some k ∧ c1Trial.choice_time = some t ∧
        c1Trial.choice_rt = some (t - p.1)) :=
  c5_trial_invariants "P1_2021-07-16_09h56.52.759.log" c1Lines [c1Trial]
    (by decide) 0 c1Trial rfl

/-- A line is tokenized to an event exactly when it is valid, and then to
the event its fields denote. -/
theorem parseLine_eq (line : String) :
    parseLine line =
      if specLineValid line then some (specLineEvent line) else none := by
  unfold parseLine specLineValid specLineEvent
  by_cases h3 : (pySplit (rstripNl line) '\t').length < 3
  · simp [h3, Nat.lt_iff_add_one_le, Nat.not_le.2 h3]
  · cases hpf : parseFloat ((pySplit (rstripNl line) '\t').getD 0 "") with
    | none =>
      rw [List.getD_eq_getElem?_getD] at hpf
      simp [h3, hpf, Nat.not_lt.1 h3]
    | some t =>
      rw [List.getD_eq_getElem?_getD] at hpf
      simp [h3, hpf, Nat.not_lt.1 h3]

/-- The tokenizer is the valid-line filter followed by field extraction. -/
theorem filterMap_parseLine (lines : List String) :
    lines.filterMap parseLine =
      (lines.filter specLineValid).map specLineEvent := by
  induction lines with
  | nil => rfl
  | cons l tl ih =>
    rw [List.filterMap_cons, List.filter_cons]
    by_cases hv : specLineValid l = true
    · simp [parseLine_eq, hv, ih]
    · simp [parseLine_eq, hv, ih]

/-- Claim C7: `iter_log_events` yields exactly one event per valid line and
none for invalid lines, preserving order, where a line is valid iff it has
at least 3 tab-separated fields and field 0 parses as a float; invalid lines
are skipped silently. -/
theorem c7_tokenizer (lines : List String) :
    iter_log_events lines = (lines.filter specLineValid).map specLineEvent ∧
    (iter_log_events lines).length = (lines.filter specLineValid).length ∧
    (∀ line, (parseLine line).isSome = true ↔ specLineValid line = true) := by
  refine ⟨filterMap_parseLine lines, ?_, ?_⟩
  · rw [iter_log_events, filterMap_parseLine]
    simp
  · intro line
    rw [parseLine_eq]
    by_cases hv : specLineValid line = true <;> simp [hv]

/-- On a newline-free message, the code's key extraction agrees with the
claim's characterization of a key event. -/
theorem keyEvent_eq_spec (e : LogEvent) (h : '\n' ∉ e.msg.data) :
    (if e.etype = "DATA" then (keyLabel e.msg).map (fun k => (e.t, k))
      else none) = specKeyOf e := by
  unfold keyLabel specKeyOf
  by_cases hd : e.etype = "DATA"
  · by_cases hp : "Keydown:".data.isPrefixOf e.msg.data = true
    · simp only [hd, hp, if_true, Bool.and_self, Option.map_some', decide_True,
        Bool.and_true, String.data]
      have hsub : ∀ c ∈ (e.msg.data.drop 8).dropWhile pyIsSpace,
          (c ≠ '\n' : Bool) := by
        intro c hc
        have h1 : c ∈ e.msg.data.drop 8 :=
          (List.dropWhile_sublist _).subset hc
        have h2 : c ∈ e.msg.data := List.drop_subset _ _ h1
        simp only [ne_eq, decide_eq_true_eq]
        intro hceq
        exact h (hceq ▸ h2)
      rw [List.takeWhile_eq_self_iff.mpr hsub]
    · simp [hd, hp]
  · simp [hd]

/-- The key-event pass equals the claim-side `filterMap` on newline-free
messages. -/
theorem extractKeyEvents_eq_spec (events : List LogEvent)
    (h : ∀ e ∈ events, '\n' ∉ e.msg.data) :
    extractKeyEvents events = events.filterMap specKeyOf := by
  induction events with
  | nil => rfl
  | cons e tl ih =>
    have ihh := ih (fun x hx => h x (List.mem_cons_of_mem _ hx))
    rw [extractKeyEvents] at ihh ⊢
    rw [List.filterMap_cons, List.filterMap_cons,
      keyEvent_eq_spec e (h e (List.mem_cons_self _ _)), ihh]

/-- Claim C10: `parse_time_interval_log` takes an event to be a key event
iff its type is exactly "DATA" and its message starts with "Keydown:"; the
label is the rest of the message after "Keydown:" and any immediately
following whitespace; order is preserved; a "Keydown:" later in the message,
or under another event type, produces no key event. -/
theorem c10_key_events (events : List LogEvent)
    (h : ∀ e ∈ events, '\n' ∉ e.msg.data) :
    extractKeyEvents events = events.filterMap specKeyOf ∧
    extractKeyEvents [⟨1, "EXP", "Keydown: 1"⟩] = [] ∧
    extractKeyEvents [⟨1, "DATA", "x Keydown: 1"⟩] = [] ∧
    extractKeyEvents [⟨1, "DATA", "Keydown:   2"⟩] = [(1, "2")] :=
  ⟨extractKeyEvents_eq_spec events h, by decide, by decide, by decide⟩

/-- Witness for C10: the scenario's keydown event is classified alike by
code and claim. -/
theorem c10_key_events_witness :
    extractKeyEvents [⟨(26 : ℚ)/5, "DATA", "Keydown: 1"⟩] =
      [(⟨(26 : ℚ)/5, "DATA", "Keydown: 1"⟩ : LogEvent)].filterMap specKeyOf :=
  (c10_key_events [⟨(26 : ℚ)/5, "DATA", "Keydown: 1"⟩] (by decide)).1

/-- Soundness of the digit matcher: a successful parse is a decomposition
into `n` leading digits and the rest. -/
theorem takeDigits_sound (n : Nat) (cs ds rest : List Char)
    (h : takeDigits n cs = some (ds, rest)) :
    cs = ds ++ rest ∧ ds.length = n ∧ ∀ c ∈ ds, c.isDigit = true := by
  induction n generalizing cs ds with
  | zero =>
    rw [takeDigits] at h
    cases h
    simp
  | succ m ih =>
    cases cs with
    | nil => cases h
    | cons c cl =>
      rw [takeDigits] at h
      by_cases hd : c.isDigit = true
      · rw [if_pos hd] at h
        cases ht : takeDigits m cl with
        | none => rw [ht] at h; cases h
        | some p =>
          obtain ⟨ds', rest'⟩ := p
          rw [ht] at h
          cases h
          obtain ⟨heq, hlen, hdig⟩ := ih cl ds' ht
          refine ⟨by rw [heq]; rfl, by simp [hlen], ?_⟩
          intro x hx
          rcases List.mem_cons.1 hx with rfl | hmem
          · exact hd
          · exact hdig x hmem
      · rw [if_neg hd] at h
        cases h

/-- Completeness of the digit matcher: `n` leading digits always parse. -/
theorem takeDigits_complete (n : Nat) (ds rest : List Char)
    (hlen : ds.length = n) (hdig : ∀ c ∈ ds, c.isDigit = true) :
    takeDigits n (ds ++ rest) = some (ds, rest) := by
  induction ds generalizing n with
  | nil => cases hlen; rfl
  | cons c cl ih =>
    cases hlen
    simp only [List.cons_append, takeDigits, List.append_eq,
      if_pos (hdig c (List.mem_cons_self _ _))]
    rw [ih cl.length rfl (fun x hx => hdig x (List.mem_cons_of_mem _ hx))]

/-- Soundness of the literal matcher. -/
theorem expectChar_sound (ch : Char) (cs r : List Char)
    (h : expectChar ch cs = some r) : cs = ch :: r := by
  cases cs with
  | nil => cases h
  | cons c cl =>
    rw [expectChar] at h
    by_cases hc : c = ch
    · rw [if_pos hc] at h
      cases h
      rw [hc]
    · rw [if_neg hc] at h
      cases h

/-- Completeness of the literal matcher. -/
theorem expectChar_complete (ch : Char) (r : List Char) :
    expectChar ch (ch :: r) = some r := by
  rw [expectChar, if_pos rfl]

/-- A successful anchored match witnesses the pattern decomposition. -/
theorem matchDatetimeAt_sound (cs : List Char) (g : DtGroups)
    (h : matchDatetimeAt cs = some g) : specDtAt cs := by
  simp only [matchDatetimeAt, bind, Option.bind_eq_some, pure,
    Option.some.injEq] at h
  obtain ⟨⟨y, r1⟩, h1, h⟩ := h
  obtain ⟨r2, h2, h⟩ := h
  obtain ⟨⟨mo, r3⟩, h3, h⟩ := h
  obtain ⟨r4, h4, h⟩ := h
  obtain ⟨⟨dd, r5⟩, h5, h⟩ := h
  obtain ⟨r6, h6, h⟩ := h
  obtain ⟨⟨hh, r7⟩, h7, h⟩ := h
  obtain ⟨r8, h8, h⟩ := h
  obtain ⟨⟨mi, r9⟩, h9, h⟩ := h
  obtain ⟨r10, h10, h⟩ := h
  obtain ⟨⟨ss, r11⟩, h11, h⟩ := h
  obtain ⟨r12, h12, h⟩ := h
  obtain ⟨⟨ms, rfin⟩, h13, hg⟩ := h
  dsimp only at h2 h4 h6 h8 h10 h12 hg
  obtain ⟨e1, l1, d1⟩ := takeDigits_sound _ _ _ _ h1
  have e2 := expectChar_sound _ _ _ h2
  obtain ⟨e3, l3, d3⟩ := takeDigits_sound _ _ _ _ h3
  have e4 := expectChar_sound _ _ _ h4
  obtain ⟨e5, l5, d5⟩ := takeDigits_sound _ _ _ _ h5
  have e6 := expectChar_sound _ _ _ h6
  obtain ⟨e7, l7, d7⟩ := takeDigits_sound _ _ _ _ h7
  have e8 := expectChar_sound _ _ _ h8
  obtain ⟨e9, l9, d9⟩ := takeDigits_sound _ _ _ _ h9
  have e10 := expectChar_sound _ _ _ h10
  obtain ⟨e11, l11, d11⟩ := takeDigits_sound _ _ _ _ h11
  have e12 := expectChar_sound _ _ _ h12
  obtain ⟨e13, l13, d13⟩ := takeDigits_sound _ _ _ _ h13
  refine ⟨y, mo, dd, hh, mi, ss, ms, rfin, l1, l3, l5, l7, l9, l11, l13,
    ?_, ?_⟩
  · intro c hc
    simp only [List.mem_append] at hc
    rcases hc with ((((((hc | hc) | hc) | hc) | hc) | hc) | hc)
    · exact d1 c hc
    · exact d3 c hc
    · exact d5 c hc
    · exact d7 c hc
    · exact d9 c hc
    · exact d11 c hc
    · exact d13 c hc
  · rw [e1, e2, e3, e4, e5, e6, e7, e8, e9, e10, e11, e12, e13]

set_option maxHeartbeats 1000000 in
/-- The pattern decomposition makes the anchored match succeed. -/
theorem matchDatetimeAt_complete (cs : List Char) (h : specDtAt cs) :
    (matchDatetimeAt cs).isSome = true := by
  obtain ⟨y, mo, dd, hh, mi, ss, ms, rest, l1, l3, l5, l7, l9, l11, l13,
    hdig, rfl⟩ := h
  have dy : ∀ c ∈ y, c.isDigit = true := fun c hc =>
    hdig c (by simp [List.mem_append, hc])
  have dmo : ∀ c ∈ mo, c.isDigit = true := fun c hc =>
    hdig c (by simp [List.mem_append, hc])
  have ddd : ∀ c ∈ dd, c.isDigit = true := fun c hc =>
    hdig c (by simp [List.mem_append, hc])
  have dhh : ∀ c ∈ hh, c.isDigit = true := fun c hc =>
    hdig c (by simp [List.mem_append, hc])
  have dmi : ∀ c ∈ mi, c.isDigit = true := fun c hc =>
    hdig c (by simp [List.mem_append, hc])
  have dss : ∀ c ∈ ss, c.isDigit = true := fun c hc =>
    hdig c (by simp [List.mem_append, hc])
  have dms : ∀ c ∈ ms, c.isDigit = true := fun c hc =>
    hdig c (by simp [List.mem_append, hc])
  simp [matchDatetimeAt, takeDigits_complete _ _ _ l1 dy,
    takeDigits_complete _ _ _ l3 dmo, takeDigits_complete _ _ _ l5 ddd,
    takeDigits_complete _ _ _ l7 dhh, takeDigits_complete _ _ _ l9 dmi,
    takeDigits_complete _ _ _ l11 dss, takeDigits_complete _ _ _ l13 dms,
    expectChar_complete]

/-- The search `searchDatetime` succeeds exactly when the datetime pattern occurs
somewhere in the character list. -/
theorem searchDatetime_isSome_iff (cs : List Char) :
    (searchDatetime cs).isSome = true ↔ specDtOccur cs := by
  induction cs with
  | nil =>
    rw [searchDatetime]
    simp only [Option.isSome_none, Bool.false_eq_true, false_iff]
    rintro ⟨pre, suf, heq, hat⟩
    obtain ⟨rfl, rfl⟩ := (List.append_eq_nil).1 heq.symm
    obtain ⟨y, mo, dd, hh, mi, ss, ms, rest, l1, -, -, -, -, -, -, -, hdec⟩ :=
      hat
    cases y with
    | nil => simp at l1
    | cons a b => simp at hdec
  | cons c tl ih =>
    rw [searchDatetime]
    cases hm : matchDatetimeAt (c :: tl) with
    | some g =>
      simp only [Option.isSome_some, true_iff]
      exact ⟨[], c :: tl, rfl, matchDatetimeAt_sound _ _ hm⟩
    | none =>
      rw [ih]
      constructor
      · rintro ⟨pre, suf, heq, hat⟩
        exact ⟨c :: pre, suf, by rw [heq]; rfl, hat⟩
      · rintro ⟨pre, suf, heq, hat⟩
        cases pre with
        | nil =>
          rw [List.nil_append] at heq
          rw [heq] at hm
          have hc := matchDatetimeAt_complete suf hat
          rw [hm] at hc
          simp at hc
        | cons p ptl =>
          rw [List.cons_append] at heq
          exact ⟨ptl, suf, (List.cons_eq_cons.1 heq).2, hat⟩

/-- Claim C8: a path whose base filename contains the pattern
`YYYY-MM-DD_HHhMM.SS.mmm` yields metadata with `experiment_date` the date
part of the leftmost match and `experiment_time` reformatted as
`HH:MM:SS.mmm`; a path whose base filename does not match fails with the
descriptive cannot-extract-datetime error, and `parse_time_interval_log`
propagates that error without returning any trial list. -/
theorem c8_metadata (path : String) (lines : List String) :
    ((searchDatetime (osBasename path).data).isSome = true ↔
      specDtOccur (osBasename path).data) ∧
    (∀ g, searchDatetime (osBasename path).data = some g →
      extract_experiment_datetime path = .ok ⟨String.mk g.date,
        String.mk g.hh ++ ":" ++ String.mk g.mi ++ ":" ++ String.mk g.ss
          ++ "." ++ String.mk g.ms⟩) ∧
    (¬specDtOccur (osBasename path).data →
      extract_experiment_datetime path = .error
        ("Could not extract experiment datetime from filename: " ++
          osBasename path)) ∧
    (∀ e, extract_experiment_datetime path = .error e →
      parse_time_interval_log path lines = .error e) := by
  refine ⟨searchDatetime_isSome_iff _, ?_, ?_, ?_⟩
  · intro g hg
    rw [extract_experiment_datetime]
    rw [hg]
  · intro hno
    rw [extract_experiment_datetime]
    cases hs : searchDatetime (osBasename path).data with
    | none => rfl
    | some g =>
      exact absurd ((searchDatetime_isSome_iff _).1 (by rw [hs]; rfl)) hno
  · intro e he
    rw [parse_time_interval_log, he]

/-- Witness for C8: a non-matching filename makes the whole parse fail with
the descriptive error. -/
theorem c8_metadata_witness :
    parse_time_interval_log "badname.log" c1Lines = .error
      "Could not extract experiment datetime from filename: badname.log" := by
  have h := c8_metadata "badname.log" c1Lines
  refine h.2.2.2 _ (h.2.2.1 ?_)
  intro hocc
  have := (searchDatetime_isSome_iff (osBasename "badname.log").data).2 hocc
  revert this
  decide
